import Mathlib

/-!
# acme-lsp assist engine: focus tracking, command classification, position mapping

A shallow embedding of `internal/lsp/acmelsp/assist.go` (the focus/position
merger `notifyPosChange` and the classifier `helpType`) and of the line index
of package `text` exercised by `internal/lsp/text/line_test.go`.

Go `int` and `rune` values are embedded as `Int`; no arithmetic is performed on
them by the embedded code, so no wrap-around can occur.  Character indices of
the line index are natural numbers counting Unicode code points.
-/

namespace AcmeLsp

/-! ## Command classifier (`isIdentifier`, `helpType`) -/

/-- Go's `rune` (an `int32` code point). -/
abbrev rune := Int

/-- The code point of a character literal, as a `rune`. -/
def runeOf (c : Char) : rune := (c.toNat : Int)

/-- The three predicates of Go's standard package `unicode` that `assist.go`
calls.  Their tables belong to the Go standard library, so they are parameters
of the embedding. -/
structure Unicode where
  IsSpace : rune → Bool
  IsLetter : rune → Bool
  IsNumber : rune → Bool

/-- `isIdentifier` of `assist.go`:
`unicode.IsLetter(r) || unicode.IsNumber(r) || r == '_'`. -/
def isIdentifier (u : Unicode) (r : rune) : Bool :=
  u.IsLetter r || u.IsNumber r || r == runeOf '_'

/-- `helpType` of `assist.go`. -/
def helpType (u : Unicode) (left right : rune) : String :=
  if u.IsSpace left && u.IsSpace right then
    ""
  else if isIdentifier u left && isIdentifier u right then
    "hov"
  else if left == runeOf '(' || left == runeOf '[' || left == runeOf '<'
      || left == runeOf '{' then
    "sig"
  else
    "comp"

/-- The behaviour of Go's `unicode.IsSpace`, `unicode.IsLetter` and
`unicode.IsNumber` on the ASCII range (all three are `false` elsewhere in this
fragment); used to evaluate the classifier on concrete ASCII inputs. -/
def asciiUnicode : Unicode where
  IsSpace r := r == 9 || r == 10 || r == 11 || r == 12 || r == 13 || r == 32
  IsLetter r := (decide (65 ≤ r) && decide (r ≤ 90)) || (decide (97 ≤ r) && decide (r ≤ 122))
  IsNumber r := decide (48 ≤ r) && decide (r ≤ 57)

/-! ## Focus/event merger (`focusWin`, `notifyPosChange`) -/

/-- The struct `focusWin` of `assist.go`. -/
structure focusWin where
  id : Int
  q0 : Int
  name : String
deriving DecidableEq, Repr

/-- `(*focusWin).Reset`. -/
def focusWin.Reset (_fw : focusWin) : focusWin :=
  { id := -1, q0 := -1, name := "" }

/-- `newFocusWin`: the zero value of the struct, then `Reset`. -/
def newFocusWin : focusWin :=
  focusWin.Reset { id := 0, q0 := 0, name := "" }

/-- What the host editor answers when `SetQ0` asks for the cursor of a window:
`acmeutil.OpenWin` fails, or `CurrentAddr` fails, or `CurrentAddr` returns the
selection `q0, q1`. -/
inductive AddrResult where
  | openErr
  | addrErr
  | addr (q0 q1 : Int)
deriving DecidableEq, Repr

/-- The host editor as seen by one timer tick: the answer for every window id. -/
abbrev Acme := Int → AddrResult

/-- `(*focusWin).SetQ0`: the updated receiver and the returned boolean. -/
def focusWin.SetQ0 (fw : focusWin) (acme : Acme) : focusWin × Bool :=
  if fw.id < 0 then
    (fw, false)
  else
    match acme fw.id with
    | .openErr => (fw, false)
    | .addrErr => (fw, false)
    | .addr q0 _ => ({ fw with q0 := q0 }, true)

/-- The fields of `acme.LogEvent` that `notifyPosChange` reads. -/
structure LogEvent where
  ID : Int
  Op : String
  Name : String
deriving DecidableEq, Repr

/-- One message taken by the `select` of `notifyPosChange`: a log event from
`logch`, or a tick of the ticker together with the host editor's answers at
that moment. -/
inductive Msg where
  | log (ev : LogEvent)
  | tick (acme : Acme)

/-- The Go map `pos` (`winid -> q0`): a missing key is `none`. -/
abbrev PosMap := Int → Option Int

/-- Reading a Go `map[int]int`: a missing key reads as the zero value. -/
def PosMap.read (pos : PosMap) (k : Int) : Int := (pos k).getD 0

/-- Writing a Go map: `pos[k] = v`. -/
def PosMap.write (pos : PosMap) (k v : Int) : PosMap :=
  fun j => if j = k then some v else pos j

/-- The local state of the loop of `notifyPosChange`. -/
structure Merger where
  fw : focusWin
  pos : PosMap

/-- The state of `notifyPosChange` on entering its loop. -/
def Merger.init : Merger := { fw := newFocusWin, pos := fun _ => none }

/-- One iteration of the loop of `notifyPosChange`: the new state and the copy
sent on `ch`, if any.  `matchFile name` is `serverSet.MatchFile(name) != nil`. -/
def notifyStep (matchFile : String → Bool) (s : Merger) : Msg → Merger × Option focusWin
  | .log ev =>
    if matchFile ev.Name && ev.Op == "focus" then
      ({ s with fw := { s.fw with id := ev.ID, name := ev.Name } }, none)
    else
      ({ s with fw := s.fw.Reset }, none)
  | .tick acme =>
    let r := s.fw.SetQ0 acme
    if r.2 && s.pos.read r.1.id != r.1.q0 then
      ({ fw := r.1, pos := s.pos.write r.1.id r.1.q0 },
        some { id := r.1.id, q0 := r.1.q0, name := r.1.name })
    else
      ({ s with fw := r.1 }, none)

/-- The loop of `notifyPosChange` over a finite sequence of messages, from
state `s`: the final state and the events sent on `ch`, in order. -/
def notifyRun (matchFile : String → Bool) (s : Merger) : List Msg → Merger × List focusWin
  | [] => (s, [])
  | m :: ms =>
    let r := notifyStep matchFile s m
    let rest := notifyRun matchFile r.1 ms
    (rest.1, r.2.toList ++ rest.2)

/-- `notifyPosChange` from its initial state. -/
def notifyPosChange (matchFile : String → Bool) (msgs : List Msg) : Merger × List focusWin :=
  notifyRun matchFile Merger.init msgs

/-- The (window id, cursor index) pair carried by an emitted event. -/
def focusWin.key (fw : focusWin) : Int × Int := (fw.id, fw.q0)

/-! ## Position mapper (package `text`, exercised by `line_test.go`)

`internal/lsp/text/line.go` is not among the sources at hand; only its test
file is.  The definitions of this section follow the specification's
description of the line index and of the two mappings, and are checked against
every row of the two test tables of `line_test.go` below. -/

/-- Modelled from the spec: the line index built by `getNewlineOffsets` (its
source file `line.go` is missing).  `offsets` is the table of line-start
character offsets, `eof` the end-of-file offset (the total number of code
points of the document). -/
structure LineIndex where
  offsets : List Nat
  eof : Nat
deriving DecidableEq, Repr

/-- Modelled from the spec: the single scan of the document's text in
`getNewlineOffsets` (source `line.go` missing), "recording the position
immediately following every newline".  `pos` is the character index of the
head of the remaining text. -/
def scanNewlines : List Char → Nat → List Nat
  | [], _ => []
  | c :: cs, pos =>
    if c = '\n' then (pos + 1) :: scanNewlines cs (pos + 1)
    else scanNewlines cs (pos + 1)

/-- Modelled from the spec: `getNewlineOffsets` (source `line.go` missing).
The table starts with `offset[0] = 0` and continues with the position after
every newline; positions count code points, not bytes. -/
def getNewlineOffsets (doc : String) : LineIndex :=
  { offsets := 0 :: scanNewlines doc.data 0, eof := doc.data.length }

/-- Modelled from the spec: the span of line `line` (source `line.go`
missing): "line i spans [offset[i], offset[i+1]) for i < last line, and
[offset[last], EOF) for the last line"; the value is the length of that
interval. -/
def LineIndex.span (off : LineIndex) (line : Nat) : Nat :=
  (off.offsets.getD (line + 1) off.eof) - off.offsets.getD line 0

/-- Modelled from the spec: `LineToOffset` (source `line.go` missing).  "If
line is within range and column does not exceed the span of that line, return
offset[line] + column directly.  If column exceeds the line's span, or line
exceeds the number of lines that exist, the result saturates at end-of-file." -/
def LineIndex.LineToOffset (off : LineIndex) (line col : Nat) : Nat :=
  if line < off.offsets.length ∧ col ≤ off.span line then
    off.offsets.getD line 0 + col
  else
    off.eof

/-- Modelled from the spec: the boundary search of `OffsetToLine` (source
`line.go` missing) over the increasing offset table: the greatest line whose
start offset is at most `index`. -/
def findLine : List Nat → Nat → Nat
  | [], _ => 0
  | [_], _ => 0
  | _ :: o :: rest, index =>
    if o ≤ index then findLine (o :: rest) index + 1 else 0

/-- Modelled from the spec: `OffsetToLine` (source `line.go` missing).  "Find
the greatest line L whose start offset is ≤ index; column = index − offset[L].
If index exceeds the document's total character count, it is clamped to the
end-of-file position."  The table entry one past a final newline counts as a
line here, as the row `{testFile1, 0xF, 4, 0}` of `TestLineOffsets` requires. -/
def LineIndex.OffsetToLine (off : LineIndex) (index : Nat) : Nat × Nat :=
  let i := min index off.eof
  let line := findLine off.offsets i
  (line, i - off.offsets.getD line 0)

/-- The test documents of `line_test.go`. -/
def testFile1 : String := "123\n56αβ9\n\nCDE\n"

/-- The test document of `line_test.go` that does not end with a newline. -/
def testFile2 : String := "12345\n678"

/-- The one-line test document of `line_test.go`. -/
def testFile3 : String := "hello"

/-- The table of `TestLineOffsets`: file, offset, line, col. -/
def lineOffsetsCases : List (String × Nat × Nat × Nat) :=
  [ (testFile1, 0x0, 0, 0), (testFile1, 0x1, 0, 1), (testFile1, 0x2, 0, 2),
    (testFile1, 0x3, 0, 3), (testFile1, 0x4, 1, 0), (testFile1, 0x5, 1, 1),
    (testFile1, 0x6, 1, 2), (testFile1, 0x7, 1, 3), (testFile1, 0x8, 1, 4),
    (testFile1, 0x9, 1, 5), (testFile1, 0xA, 2, 0), (testFile1, 0xB, 3, 0),
    (testFile1, 0xC, 3, 1), (testFile1, 0xD, 3, 2), (testFile1, 0xE, 3, 3),
    (testFile1, 0xF, 4, 0), (testFile2, 0x5, 0, 5), (testFile2, 0x6, 1, 0),
    (testFile2, 0x7, 1, 1), (testFile2, 0x8, 1, 2), (testFile2, 0x9, 1, 3),
    (testFile3, 0x0, 0, 0), (testFile3, 0x1, 0, 1), (testFile3, 0x5, 0, 5) ]

/-- The table of `TestLineOffsetsLeftover`: file, offset, line, col. -/
def lineOffsetsLeftoverCases : List (String × Nat × Nat × Nat) :=
  [ (testFile2, 0x9, 1, 4), (testFile2, 0x9, 2, 0), (testFile2, 0x9, 2, 1),
    (testFile2, 0x9, 2, 2), (testFile2, 0x9, 3, 0), (testFile2, 0x9, 3, 1),
    (testFile2, 0x9, 3, 2), (testFile2, 0x9, 4, 0), (testFile2, 0x9, 4, 1),
    (testFile2, 0x9, 4, 2), (testFile3, 0x5, 0, 6), (testFile3, 0x5, 0, 7),
    (testFile3, 0x5, 1, 0), (testFile3, 0x5, 1, 2) ]

/-- The check made by the loop body of `TestLineOffsets` on one row. -/
def checkLineOffsets (tc : String × Nat × Nat × Nat) : Bool :=
  let off := getNewlineOffsets tc.1
  off.LineToOffset tc.2.2.1 tc.2.2.2 == tc.2.1
    && off.OffsetToLine tc.2.1 == (tc.2.2.1, tc.2.2.2)

/-- The check made by the loop body of `TestLineOffsetsLeftover` on one row. -/
def checkLineOffsetsLeftover (tc : String × Nat × Nat × Nat) : Bool :=
  let off := getNewlineOffsets tc.1
  off.LineToOffset tc.2.2.1 tc.2.2.2 == tc.2.1

/-- The opening brackets tested by the `switch` of `helpType`. -/
def openBrackets : List rune :=
  [runeOf '(', runeOf '[', runeOf '<', runeOf '{']

/-- A log notification carries a non-negative window id (ticks carry none). -/
def Msg.idNonneg : Msg → Bool
  | .log ev => decide (0 ≤ ev.ID)
  | .tick _ => true

/-- A host editor in which window `id` has its cursor at `q0` and every other
window cannot be opened. -/
def acmeAt (id q0 : Int) : Acme :=
  fun w => if w = id then .addr q0 q0 else .openErr

/-- A server set that manages exactly the files `a.go` and `b.go`. -/
def goFiles (name : String) : Bool := name == "a.go" || name == "b.go"

/-- The merger after window 1 (`a.go`) got the focus and one tick found its
cursor at index 5. -/
def trackingAt5 : Merger :=
  (notifyPosChange goFiles [.log ⟨1, "focus", "a.go"⟩, .tick (acmeAt 1 5)]).1

/-- The merger after window 1 (`a.go`) got the focus and no tick came yet. -/
def freshFocus : Merger :=
  (notifyPosChange goFiles [.log ⟨1, "focus", "a.go"⟩]).1

/-- The behaviour of Go's `unicode.IsSpace`, `unicode.IsLetter` and
`unicode.IsNumber` on the Latin-1 range U+0000 to U+00FF (all three are `false`
elsewhere in this fragment).  Whitespace: tab to carriage return, space,
U+0085, U+00A0.  Letters: `A` to `Z`, `a` to `z`, U+00AA, U+00B5, U+00BA,
U+00C0 to U+00FF without U+00D7 and U+00F7.  Numbers: `0` to `9`, the
superscripts U+00B2, U+00B3, U+00B9 and the fractions U+00BC to U+00BE. -/
def latin1Unicode : Unicode where
  IsSpace r := r == 9 || r == 10 || r == 11 || r == 12 || r == 13 || r == 32
    || r == 0x85 || r == 0xA0
  IsLetter r := (decide (65 ≤ r) && decide (r ≤ 90)) || (decide (97 ≤ r) && decide (r ≤ 122))
    || r == 0xAA || r == 0xB5 || r == 0xBA
    || (decide (0xC0 ≤ r) && decide (r ≤ 0xFF) && r != 0xD7 && r != 0xF7)
  IsNumber r := (decide (48 ≤ r) && decide (r ≤ 57))
    || r == 0xB2 || r == 0xB3 || r == 0xB9 || (decide (0xBC ≤ r) && decide (r ≤ 0xBE))

/-- The behaviour of Go's `unicode.IsDigit` on the Latin-1 range: the decimal
digits `0` to `9` (`false` elsewhere in this fragment). -/
def latin1IsDigit (r : rune) : Bool := decide (48 ≤ r) && decide (r ≤ 57)

/-- The identifier constituent in the words of the specification, "letter,
digit, or underscore", to be compared with `isIdentifier` of the source. -/
def letterDigitUnderscore (u : Unicode) (r : rune) : Bool :=
  u.IsLetter r || latin1IsDigit r || r == runeOf '_'

/-! ## Theorems -/

/-! ### The classifier -/

/-- C4 (classifier totality): for every pair of characters, `helpType` returns
one of the four strings `""`, `"hov"`, `"sig"`, `"comp"` (which are pairwise
distinct, so exactly one of them), and when both characters are whitespace it
returns `""`. -/
theorem helpType_total (u : Unicode) (left right : rune) :
    (helpType u left right = "" ∨ helpType u left right = "hov"
      ∨ helpType u left right = "sig" ∨ helpType u left right = "comp")
    ∧ ("" ≠ "hov" ∧ "" ≠ "sig" ∧ "" ≠ "comp" ∧ "hov" ≠ "sig" ∧ "hov" ≠ "comp"
      ∧ "sig" ≠ "comp")
    ∧ (u.IsSpace left = true ∧ u.IsSpace right = true → helpType u left right = "") := by
  refine ⟨?_, by decide, ?_⟩
  · unfold helpType
    split
    · exact Or.inl rfl
    · split
      · exact Or.inr (Or.inl rfl)
      · split
        · exact Or.inr (Or.inr (Or.inl rfl))
        · exact Or.inr (Or.inr (Or.inr rfl))
  · rintro ⟨hl, hr⟩
    simp [helpType, hl, hr]

/-- Evaluation of C4 on the pair (space, space) and the ASCII tables. -/
theorem helpType_total_witness :
    helpType asciiUnicode (runeOf ' ') (runeOf ' ') = "" :=
  (helpType_total asciiUnicode (runeOf ' ') (runeOf ' ')).2.2 ⟨by decide, by decide⟩

/-- C5, as stated, fails: on the pair (`x`, `½`) `helpType` returns `"hov"`,
but `½` (U+00BD) is a number to `unicode.IsNumber` without being a letter, a
digit or the underscore; the claimed equivalence with "letter, digit, or
underscore" is false there. -/
theorem helpType_hov_non_digit :
    helpType latin1Unicode (runeOf 'x') (runeOf '½') = "hov"
    ∧ latin1Unicode.IsNumber (runeOf '½') = true
    ∧ latin1Unicode.IsLetter (runeOf '½') = false
    ∧ latin1IsDigit (runeOf '½') = false
    ∧ runeOf '½' ≠ runeOf '_'
    ∧ ¬ (helpType latin1Unicode (runeOf 'x') (runeOf '½') = "hov" ↔
          (letterDigitUnderscore latin1Unicode (runeOf 'x') = true
            ∧ letterDigitUnderscore latin1Unicode (runeOf '½') = true)) := by
  decide

/-- C5, amended (hover rule): `helpType` returns `"hov"` exactly when each of
the two characters is a letter (`unicode.IsLetter`), a number
(`unicode.IsNumber`, any Unicode number character and not only a digit), or
the underscore.  The Unicode tables enter through the fact that no whitespace
code point is a letter, a number or the underscore. -/
theorem helpType_hov_iff (u : Unicode)
    (hspace : ∀ r, u.IsSpace r = true → u.IsLetter r = false ∧ u.IsNumber r = false)
    (hunder : u.IsSpace (runeOf '_') = false) (left right : rune) :
    helpType u left right = "hov" ↔
      ((u.IsLetter left = true ∨ u.IsNumber left = true ∨ left = runeOf '_')
        ∧ (u.IsLetter right = true ∨ u.IsNumber right = true ∨ right = runeOf '_')) := by
  have hexp : ∀ r, isIdentifier u r = true ↔
      (u.IsLetter r = true ∨ u.IsNumber r = true ∨ r = runeOf '_') := by
    intro r
    simp only [isIdentifier, Bool.or_eq_true, beq_iff_eq, or_assoc]
  have hid : ∀ r, u.IsSpace r = true → ¬ isIdentifier u r = true := by
    intro r hr
    have h := hspace r hr
    have hne : r ≠ runeOf '_' := by
      intro h'
      rw [h', hunder] at hr
      exact Bool.false_ne_true hr
    simp [isIdentifier, h.1, h.2, hne]
  rw [← hexp left, ← hexp right]
  unfold helpType
  split
  · rename_i h
    simp only [Bool.and_eq_true] at h
    constructor
    · intro h'
      exact absurd h' (by decide)
    · intro h'
      exact absurd h'.1 (hid left h.1)
  · split
    · rename_i h
      simp only [Bool.and_eq_true] at h
      exact ⟨fun _ => h, fun _ => rfl⟩
    · rename_i h
      simp only [Bool.and_eq_true] at h
      split
      · constructor
        · intro h'
          exact absurd h' (by decide)
        · intro h'
          exact absurd h' h
      · constructor
        · intro h'
          exact absurd h' (by decide)
        · intro h'
          exact absurd h' h

/-- The Latin-1 tables have no whitespace code point that is a letter or a
number. -/
theorem latin1Unicode_space_not_ident (r : rune) (h : latin1Unicode.IsSpace r = true) :
    latin1Unicode.IsLetter r = false ∧ latin1Unicode.IsNumber r = false := by
  simp only [latin1Unicode, Bool.or_eq_true, beq_iff_eq] at h
  rcases h with ((((((h | h) | h) | h) | h) | h) | h) | h <;> subst h <;> decide

/-- Evaluation of the amended C5 on the Latin-1 tables: the pair (`x`, `½`),
a letter and a number that is no digit, gives `"hov"`. -/
theorem helpType_hov_iff_witness :
    helpType latin1Unicode (runeOf 'x') (runeOf '½') = "hov" :=
  (helpType_hov_iff latin1Unicode latin1Unicode_space_not_ident (by decide)
    (runeOf 'x') (runeOf '½')).mpr ⟨Or.inl (by decide), Or.inr (Or.inl (by decide))⟩

/-- C6 (signature-help rule): for every left character among `(`, `[`, `<`,
`{` and every right character, `helpType` returns `"sig"`.  The Unicode tables
enter through the fact that none of the four brackets is whitespace, a letter
or a number, so neither of the two earlier rules fires. -/
theorem helpType_sig (u : Unicode)
    (hbr : ∀ b ∈ openBrackets,
      u.IsSpace b = false ∧ u.IsLetter b = false ∧ u.IsNumber b = false)
    (left right : rune) (hleft : left ∈ openBrackets) :
    helpType u left right = "sig" := by
  obtain ⟨h1, h2, h3⟩ := hbr left hleft
  have hne : (left == runeOf '_') = false := by
    simp only [openBrackets, List.mem_cons, List.mem_singleton, List.not_mem_nil,
      or_false] at hleft
    rcases hleft with h | h | h | h <;> subst h <;> decide
  have hsw : (left == runeOf '(' || left == runeOf '[' || left == runeOf '<'
      || left == runeOf '{') = true := by
    simp only [openBrackets, List.mem_cons, List.mem_singleton, List.not_mem_nil,
      or_false] at hleft
    rcases hleft with h | h | h | h <;> subst h <;> decide
  simp [helpType, isIdentifier, h1, h2, h3, hne, hsw]

/-- Evaluation of C6 on the pair (`(`, `x`) and the ASCII tables. -/
theorem helpType_sig_witness :
    helpType asciiUnicode (runeOf '(') (runeOf 'x') = "sig" :=
  helpType_sig asciiUnicode (by decide) (runeOf '(') (runeOf 'x') (by decide)

/-! ### The focus/event merger -/

/-- Reading back the key just written gives the value written. -/
theorem PosMap.read_write_same (pos : PosMap) (k v : Int) :
    (pos.write k v).read k = v := by
  simp [PosMap.read, PosMap.write]

/-- One iteration either sends nothing and leaves the map `pos` alone, or sends
an event whose index differs from the recorded one and records it. -/
theorem notifyStep_cases (matchFile : String → Bool) (s : Merger) (m : Msg) :
    ((notifyStep matchFile s m).2 = none ∧ (notifyStep matchFile s m).1.pos = s.pos)
    ∨ ∃ e, (notifyStep matchFile s m).2 = some e ∧ s.pos.read e.id ≠ e.q0
        ∧ (notifyStep matchFile s m).1.pos = s.pos.write e.id e.q0 := by
  cases m with
  | log ev =>
    left
    simp only [notifyStep]
    split <;> exact ⟨rfl, rfl⟩
  | tick acme =>
    simp only [notifyStep]
    split
    · rename_i h
      right
      simp only [Bool.and_eq_true, bne_iff_ne, ne_eq] at h
      exact ⟨_, rfl, h.2, rfl⟩
    · left
      exact ⟨rfl, rfl⟩

/-- After an event `e` whose index is the recorded one for its window, every
further event sent continues a chain without equal neighbours. -/
theorem notifyRun_chain (matchFile : String → Bool) (msgs : List Msg) :
    ∀ (s : Merger) (e : focusWin), s.pos.read e.id = e.q0 →
      List.Chain (fun a b => a.key ≠ b.key) e (notifyRun matchFile s msgs).2 := by
  induction msgs with
  | nil => intro s e _; exact List.Chain.nil
  | cons m ms ih =>
    intro s e he
    simp only [notifyRun]
    rcases notifyStep_cases matchFile s m with ⟨h2, hpos⟩ | ⟨e2, h2, hne, hpos⟩
    · rw [h2]
      simp only [Option.toList, List.nil_append]
      exact ih _ e (by rw [hpos]; exact he)
    · rw [h2]
      simp only [Option.toList, List.singleton_append]
      refine List.Chain.cons ?_ (ih _ e2 (by rw [hpos]; exact PosMap.read_write_same _ _ _))
      intro hk
      simp only [focusWin.key, Prod.mk.injEq] at hk
      apply hne
      rw [← hk.1, ← hk.2]
      exact he

/-- From any state, the events sent form a chain without equal neighbours. -/
theorem notifyRun_chain' (matchFile : String → Bool) (msgs : List Msg) :
    ∀ s : Merger, List.Chain' (fun a b => a.key ≠ b.key) (notifyRun matchFile s msgs).2 := by
  induction msgs with
  | nil => intro s; exact List.chain'_nil
  | cons m ms ih =>
    intro s
    simp only [notifyRun]
    rcases notifyStep_cases matchFile s m with ⟨h2, _⟩ | ⟨e2, h2, _, hpos⟩
    · rw [h2]
      simp only [Option.toList, List.nil_append]
      exact ih _
    · rw [h2]
      simp only [Option.toList, List.singleton_append, List.Chain']
      exact notifyRun_chain matchFile ms _ e2
        (by rw [hpos]; exact PosMap.read_write_same _ _ _)

/-- C1 (dedup): for every set of managed files, every finite sequence of log
notifications and timer ticks, and every outcome of the cursor queries made by
the ticks, no two consecutive events sent by `notifyPosChange` carry the same
(window id, cursor index) pair. -/
theorem notifyPosChange_dedup (matchFile : String → Bool) (msgs : List Msg) :
    List.Chain' (fun a b : focusWin => (a.id, a.q0) ≠ (b.id, b.q0))
      (notifyPosChange matchFile msgs).2 :=
  notifyRun_chain' matchFile msgs Merger.init

/-- A run that polls window 1 twice at index 5, moves to window 2, comes back
to window 1 (still at 5) and then sees the cursor move to 6 sends three
events: the repeated and the remembered position send nothing. -/
theorem notifyPosChange_sample_run :
    (notifyPosChange goFiles
      [.log ⟨1, "focus", "a.go"⟩, .tick (acmeAt 1 5), .tick (acmeAt 1 5),
       .log ⟨2, "focus", "b.go"⟩, .tick (acmeAt 2 3),
       .log ⟨1, "focus", "a.go"⟩, .tick (acmeAt 1 5), .tick (acmeAt 1 6)]).2
      = [⟨1, 5, "a.go"⟩, ⟨2, 3, "b.go"⟩, ⟨1, 6, "a.go"⟩] := by
  decide

/-- The invariant of `focusWin`: window id -1 means index -1 and empty name. -/
theorem notifyStep_inv (matchFile : String → Bool) (s : Merger) (m : Msg)
    (hm : m.idNonneg = true)
    (hs : s.fw.id = -1 → s.fw.q0 = -1 ∧ s.fw.name = "") :
    (notifyStep matchFile s m).1.fw.id = -1 →
      (notifyStep matchFile s m).1.fw.q0 = -1 ∧ (notifyStep matchFile s m).1.fw.name = "" := by
  cases m with
  | log ev =>
    simp only [Msg.idNonneg, decide_eq_true_eq] at hm
    simp only [notifyStep]
    split
    · intro h
      simp only at h
      omega
    · intro _
      exact ⟨rfl, rfl⟩
  | tick acme =>
    have hfw : ∀ fw : focusWin, (fw.id = -1 → fw.q0 = -1 ∧ fw.name = "") →
        (fw.SetQ0 acme).1.id = -1 →
          (fw.SetQ0 acme).1.q0 = -1 ∧ (fw.SetQ0 acme).1.name = "" := by
      intro fw hfw
      unfold focusWin.SetQ0
      split
      · exact hfw
      · split
        · exact hfw
        · exact hfw
        · intro h
          simp only at h
          omega
    simp only [notifyStep]
    split
    · exact hfw s.fw hs
    · exact hfw s.fw hs

/-- The invariant of `focusWin` is kept by a run from any state satisfying it. -/
theorem notifyRun_inv (matchFile : String → Bool) (msgs : List Msg) :
    ∀ s : Merger, msgs.all Msg.idNonneg = true →
      (s.fw.id = -1 → s.fw.q0 = -1 ∧ s.fw.name = "") →
      (notifyRun matchFile s msgs).1.fw.id = -1 →
        (notifyRun matchFile s msgs).1.fw.q0 = -1
          ∧ (notifyRun matchFile s msgs).1.fw.name = "" := by
  induction msgs with
  | nil => intro s _ hs; exact hs
  | cons m ms ih =>
    intro s hall hs
    simp only [List.all_cons, Bool.and_eq_true] at hall
    simp only [notifyRun]
    exact ih _ hall.2 (notifyStep_inv matchFile s m hall.1 hs)

/-- C7 (FocusState invariant): in every state of the live `focusWin` reached
from `newFocusWin` by a sequence of log notifications carrying non-negative
window ids and of timer ticks, a window id of -1 comes with cursor index -1 and
an empty document name. -/
theorem notifyPosChange_focusWin_inv (matchFile : String → Bool) (msgs : List Msg)
    (hids : msgs.all Msg.idNonneg = true)
    (hnone : (notifyPosChange matchFile msgs).1.fw.id = -1) :
    (notifyPosChange matchFile msgs).1.fw.q0 = -1
      ∧ (notifyPosChange matchFile msgs).1.fw.name = "" :=
  notifyRun_inv matchFile msgs Merger.init hids (fun _ => ⟨rfl, rfl⟩) hnone

/-- Evaluation of C7 on a run that focuses window 1, polls it at index 5 and
then sees a `del` notification. -/
theorem notifyPosChange_focusWin_inv_witness :
    (notifyPosChange goFiles
        [.log ⟨1, "focus", "a.go"⟩, .tick (acmeAt 1 5), .log ⟨1, "del", "a.go"⟩]).1.fw.q0 = -1
      ∧ (notifyPosChange goFiles
        [.log ⟨1, "focus", "a.go"⟩, .tick (acmeAt 1 5), .log ⟨1, "del", "a.go"⟩]).1.fw.name = "" :=
  notifyPosChange_focusWin_inv goFiles
    [.log ⟨1, "focus", "a.go"⟩, .tick (acmeAt 1 5), .log ⟨1, "del", "a.go"⟩]
    (by decide) (by decide)

/-- C8, as stated, fails: after window 1 was polled at index 5, a further
"focus" notification for the managed file of window 1 records id and name but
the live cursor index is still 5 (not -1), the table still holds 5 for window
1, and the next poll at index 5 is compared against it and sends nothing. -/
theorem notifyStep_focus_keeps_cursor :
    goFiles "a.go" = true
    ∧ (notifyStep goFiles trackingAt5 (.log ⟨1, "focus", "a.go"⟩)).1.fw.id = 1
    ∧ (notifyStep goFiles trackingAt5 (.log ⟨1, "focus", "a.go"⟩)).1.fw.name = "a.go"
    ∧ (notifyStep goFiles trackingAt5 (.log ⟨1, "focus", "a.go"⟩)).1.fw.q0 = 5
    ∧ (notifyStep goFiles trackingAt5 (.log ⟨1, "focus", "a.go"⟩)).1.fw.q0 ≠ -1
    ∧ (notifyStep goFiles trackingAt5 (.log ⟨1, "focus", "a.go"⟩)).1.pos 1 = some 5
    ∧ (notifyStep goFiles
        (notifyStep goFiles trackingAt5 (.log ⟨1, "focus", "a.go"⟩)).1
        (.tick (acmeAt 1 5))).2 = none := by
  decide

/-- C8, amended (focus transition): a notification whose operation is "focus"
and whose document is under management makes the tracked state hold that
notification's window id and document name; the live cursor index keeps its
previous value, the per-window recorded indices are unchanged, and no event is
sent. -/
theorem notifyStep_focus (matchFile : String → Bool) (s : Merger) (ev : LogEvent)
    (hop : ev.Op = "focus") (hfile : matchFile ev.Name = true) :
    (notifyStep matchFile s (.log ev)).1.fw.id = ev.ID
    ∧ (notifyStep matchFile s (.log ev)).1.fw.name = ev.Name
    ∧ (notifyStep matchFile s (.log ev)).1.fw.q0 = s.fw.q0
    ∧ (notifyStep matchFile s (.log ev)).1.pos = s.pos
    ∧ (notifyStep matchFile s (.log ev)).2 = none := by
  simp [notifyStep, hop, hfile]

/-- Evaluation of the amended C8 on a focus notification for window 2
(`b.go`) arriving while window 1 is tracked at index 5. -/
theorem notifyStep_focus_witness :
    (notifyStep goFiles trackingAt5 (.log ⟨2, "focus", "b.go"⟩)).1.fw.id = 2
    ∧ (notifyStep goFiles trackingAt5 (.log ⟨2, "focus", "b.go"⟩)).1.fw.name = "b.go"
    ∧ (notifyStep goFiles trackingAt5 (.log ⟨2, "focus", "b.go"⟩)).1.fw.q0 = trackingAt5.fw.q0
    ∧ (notifyStep goFiles trackingAt5 (.log ⟨2, "focus", "b.go"⟩)).1.pos = trackingAt5.pos
    ∧ (notifyStep goFiles trackingAt5 (.log ⟨2, "focus", "b.go"⟩)).2 = none :=
  notifyStep_focus goFiles trackingAt5 ⟨2, "focus", "b.go"⟩ rfl (by decide)

/-- C9 (a tick without a cursor position is a no-op): if no window is tracked
(`fw.id < 0`), or opening the tracked window fails, or reading its address
fails, the tick sends no event and leaves the live focus state and the table
of recorded indices unchanged. -/
theorem notifyStep_tick_noop (matchFile : String → Bool) (s : Merger) (acme : Acme)
    (h : s.fw.id < 0 ∨ acme s.fw.id = .openErr ∨ acme s.fw.id = .addrErr) :
    notifyStep matchFile s (.tick acme) = (s, none) := by
  have hq : s.fw.SetQ0 acme = (s.fw, false) := by
    unfold focusWin.SetQ0
    rcases h with h | h | h
    · simp [h]
    · split
      · rfl
      · rw [h]
    · split
      · rfl
      · rw [h]
  simp [notifyStep, hq]

/-- Evaluation of C9 on a tracked window 1 that can no longer be opened. -/
theorem notifyStep_tick_noop_witness :
    notifyStep goFiles trackingAt5 (.tick (acmeAt 2 7)) = (trackingAt5, none) :=
  notifyStep_tick_noop goFiles trackingAt5 (acmeAt 2 7) (Or.inr (Or.inl (by decide)))

/-- C10 (first poll of a window without recorded index): when the tracked
window id has no entry in the table `pos` and the cursor query succeeds with
index `q0`, the tick sends an event if and only if `q0` is not 0; the event
sent carries the window id, `q0` and the name. -/
theorem notifyStep_first_poll (matchFile : String → Bool) (s : Merger) (acme : Acme)
    (q0 q1 : Int) (hid : 0 ≤ s.fw.id) (hnew : s.pos s.fw.id = none)
    (hq : acme s.fw.id = .addr q0 q1) :
    ((notifyStep matchFile s (.tick acme)).2.isSome = true ↔ q0 ≠ 0)
    ∧ (q0 = 0 → (notifyStep matchFile s (.tick acme)).2 = none)
    ∧ (q0 ≠ 0 → (notifyStep matchFile s (.tick acme)).2
        = some { id := s.fw.id, q0 := q0, name := s.fw.name }) := by
  have hset : s.fw.SetQ0 acme = ({ s.fw with q0 := q0 }, true) := by
    unfold focusWin.SetQ0
    rw [if_neg (by omega), hq]
  have hread : s.pos.read s.fw.id = 0 := by
    simp [PosMap.read, hnew]
  by_cases h0 : q0 = 0
  · subst h0
    simp [notifyStep, hset, hread]
  · have h0' : ¬ (0 = q0) := fun h => h0 h.symm
    simp [notifyStep, hset, hread, h0, h0']

/-- Evaluation of C10 on a newly focused window 1 whose cursor is at index 0:
no event is sent. -/
theorem notifyStep_first_poll_witness :
    (notifyStep goFiles freshFocus (.tick (acmeAt 1 0))).2 = none :=
  (notifyStep_first_poll goFiles freshFocus (acmeAt 1 0) 0 0
    (by decide) (by decide) (by decide)).2.1 rfl

/-! ### The position mapper -/

/-- Every row of the table of `TestLineOffsets` passes on the model. -/
theorem lineOffsets_tests_pass : lineOffsetsCases.all checkLineOffsets = true := by
  decide

/-- Every row of the table of `TestLineOffsetsLeftover` passes on the model. -/
theorem lineOffsetsLeftover_tests_pass :
    lineOffsetsLeftoverCases.all checkLineOffsetsLeftover = true := by
  decide

/-- The line index of the first test document. -/
theorem getNewlineOffsets_testFile1 :
    getNewlineOffsets testFile1 = ⟨[0, 4, 10, 11, 15], 15⟩ := by
  decide

/-- Every offset recorded by the scan lies after `pos` and within the text. -/
theorem scanNewlines_bounds (cs : List Char) :
    ∀ pos o, o ∈ scanNewlines cs pos → pos < o ∧ o ≤ pos + cs.length := by
  induction cs with
  | nil => intro pos o h; simp [scanNewlines] at h
  | cons c cs ih =>
    intro pos o h
    simp only [scanNewlines] at h
    simp only [List.length_cons]
    split at h
    · rcases List.mem_cons.mp h with h | h
      · subst h; omega
      · have := ih _ _ h; omega
    · have := ih _ _ h; omega

/-- The offsets recorded by the scan are strictly increasing. -/
theorem scanNewlines_sorted (cs : List Char) :
    ∀ pos, List.Pairwise (· < ·) (scanNewlines cs pos) := by
  induction cs with
  | nil => intro pos; simp [scanNewlines]
  | cons c cs ih =>
    intro pos
    simp only [scanNewlines]
    split
    · refine List.Pairwise.cons ?_ (ih _)
      intro o ho
      exact (scanNewlines_bounds cs _ o ho).1
    · exact ih _

/-- The line index invariant of the specification: offsets strictly
increasing, `offset[0] = 0`, and no offset beyond end-of-file. -/
theorem getNewlineOffsets_inv (doc : String) :
    List.Pairwise (· < ·) (getNewlineOffsets doc).offsets
    ∧ (getNewlineOffsets doc).offsets.getD 0 0 = 0
    ∧ (∀ o ∈ (getNewlineOffsets doc).offsets, o ≤ (getNewlineOffsets doc).eof)
    ∧ (getNewlineOffsets doc).eof = doc.length := by
  refine ⟨?_, rfl, ?_, rfl⟩
  · refine List.Pairwise.cons ?_ (scanNewlines_sorted _ _)
    intro o ho
    exact (scanNewlines_bounds _ _ o ho).1
  · intro o ho
    simp only [getNewlineOffsets] at ho ⊢
    rcases List.mem_cons.mp ho with h | h
    · omega
    · have := scanNewlines_bounds _ _ o h; omega

/-- The boundary search returns a line of the table that starts at or before
`index` and whose successor, if any, starts after `index`. -/
theorem findLine_spec (l : List Nat) (index : Nat) :
    l ≠ [] → l.getD 0 0 ≤ index →
      findLine l index < l.length
      ∧ l.getD (findLine l index) 0 ≤ index
      ∧ ∀ d, index ≤ d → index ≤ l.getD (findLine l index + 1) d := by
  induction l with
  | nil => intro h; exact absurd rfl h
  | cons a rest ih =>
    intro _ ha
    cases rest with
    | nil =>
      simp only [findLine, List.length_singleton]
      refine ⟨by omega, ha, ?_⟩
      intro d hd
      simpa using hd
    | cons o rest =>
      simp only [findLine]
      split
      · rename_i ho
        obtain ⟨h1, h2, h3⟩ := ih (by simp) (by simpa using ho)
        refine ⟨by simp only [List.length_cons] at h1 ⊢; omega, ?_, ?_⟩
        · simpa using h2
        · intro d hd
          simpa using h3 d hd
      · rename_i ho
        refine ⟨by simp, ha, ?_⟩
        intro d _
        simp only [zero_add, List.getD_cons_succ, List.getD_cons_zero]
        omega

/-- In an increasing table bounded by `e`, a line starts no later than its
successor (or `e` for the last line), which is itself at most `e`. -/
theorem getD_succ_bounds (l : List Nat) (e : Nat) :
    List.Pairwise (· < ·) l → (∀ o ∈ l, o ≤ e) → ∀ line, line < l.length →
      l.getD line 0 ≤ l.getD (line + 1) e ∧ l.getD (line + 1) e ≤ e := by
  induction l with
  | nil => intro _ _ line h; simp at h
  | cons a rest ih =>
    intro hs hb line hline
    rw [List.pairwise_cons] at hs
    cases line with
    | zero =>
      cases rest with
      | nil => simpa using hb a (by simp)
      | cons o rest =>
        simp only [List.getD_cons_zero, zero_add, List.getD_cons_succ]
        exact ⟨Nat.le_of_lt (hs.1 o (by simp)), hb o (by simp)⟩
    | succ n =>
      simp only [List.getD_cons_succ]
      exact ih hs.2 (fun o ho => hb o (List.mem_cons_of_mem _ ho)) n
        (by simpa using hline)

/-- C2 (round trip of the position mapper): for every document and every
character index `i` with `0 ≤ i ≤` the number of code points of the document,
`LineToOffset` applied to the (line, column) returned by `OffsetToLine i`, over
the line index built by `getNewlineOffsets`, returns `i`. -/
theorem LineToOffset_OffsetToLine (doc : String) (i : Nat) (hi : i ≤ doc.length) :
    (getNewlineOffsets doc).LineToOffset
      ((getNewlineOffsets doc).OffsetToLine i).1
      ((getNewlineOffsets doc).OffsetToLine i).2 = i := by
  obtain ⟨_, h0, _, heof⟩ := getNewlineOffsets_inv doc
  have hmin : min i (getNewlineOffsets doc).eof = i := by
    rw [heof]; exact Nat.min_eq_left hi
  obtain ⟨h1, h2, h3⟩ := findLine_spec (getNewlineOffsets doc).offsets i
    (by simp [getNewlineOffsets]) (by rw [h0]; exact Nat.zero_le _)
  have h3' := h3 (getNewlineOffsets doc).eof (by rw [heof]; exact hi)
  simp only [LineIndex.OffsetToLine, hmin, LineIndex.LineToOffset, LineIndex.span]
  rw [if_pos ⟨h1, by omega⟩]
  omega

/-- Evaluation of C2 on the first test document, index 9 (line 1, column 5). -/
theorem LineToOffset_OffsetToLine_witness :
    (getNewlineOffsets testFile1).OffsetToLine 9 = (1, 5)
    ∧ (getNewlineOffsets testFile1).LineToOffset
      ((getNewlineOffsets testFile1).OffsetToLine 9).1
      ((getNewlineOffsets testFile1).OffsetToLine 9).2 = 9 :=
  ⟨by decide, LineToOffset_OffsetToLine testFile1 9 (by decide)⟩

/-- C3 (saturation of the position mapper): for every document and every
(line, column) pair in which the column exceeds the span of that line or the
line exceeds the last existing line, `LineToOffset` returns the end-of-file
offset, the document's number of code points; and for every pair whatsoever
the (total) function returns a value that does not exceed that offset. -/
theorem LineToOffset_saturates (doc : String) (line col : Nat) :
    (((getNewlineOffsets doc).offsets.length ≤ line
        ∨ (getNewlineOffsets doc).span line < col) →
      (getNewlineOffsets doc).LineToOffset line col = doc.length)
    ∧ (getNewlineOffsets doc).LineToOffset line col ≤ doc.length := by
  obtain ⟨hs, _, hb, heof⟩ := getNewlineOffsets_inv doc
  constructor
  · intro h
    unfold LineIndex.LineToOffset
    rw [if_neg (by omega), heof]
  · unfold LineIndex.LineToOffset
    split
    · rename_i h
      have := getD_succ_bounds _ _ hs hb line h.1
      have h2 := h.2
      simp only [LineIndex.span] at h2
      omega
    · exact Nat.le_of_eq heof

/-- Evaluation of C3 on `"12345\n678"`: line 3, column 1 (no such line) and
line 1, column 4 (past the span of the last line) both give 9. -/
theorem LineToOffset_saturates_witness :
    (getNewlineOffsets testFile2).LineToOffset 3 1 = 9
    ∧ (getNewlineOffsets testFile2).LineToOffset 1 4 = 9 :=
  ⟨(LineToOffset_saturates testFile2 3 1).1 (Or.inl (by decide)),
    (LineToOffset_saturates testFile2 1 4).1 (Or.inr (by decide))⟩

end AcmeLsp
